import Mathlib

/-!
Verification development for the arbitrage dashboard front-end state core
(`src/app/app.component.ts`).

The component is embedded shallowly:

* JavaScript numbers are modelled by `JNum`: either a finite rational or one
  of the non-finite values `NaN`, `Infinity`, `-Infinity`.  The operations the
  component uses (`Number.isFinite`, `Number.isNaN`, `>=`, subtraction as a
  sort comparator, `Math.max`) are given their IEEE/ECMAScript semantics on
  this carrier.
* Strings are lists of characters; `toUpperCase`, `trim` and `includes` are
  modelled directly.
* `Array.prototype.sort` with a user comparator is modelled by a stable
  insertion sort driven by the boolean relation "the comparator does not
  require `a` to come after `b`" (an ECMAScript comparator result that is
  `NaN` is treated as `+0`, i.e. as a tie).  For a consistent comparator this
  is observationally the behaviour the ECMAScript specification guarantees
  (sorted output, stability).
* The component's signals form the record `AppModel`; the browser's timer
  table is modelled by the `liveTimers` / `nextTimerId` fields, and the
  side effects of the scheduler (fetch requests, arming and cancelling
  interval timers) are reified as an `Action` trace.
-/

/-- A JavaScript number: `NaN`, `Infinity`, `-Infinity`, or a finite value
(modelled as a rational; every finite double is rational). -/
inductive JNum where
  | nan : JNum
  | posInf : JNum
  | negInf : JNum
  | val : ℚ → JNum
deriving DecidableEq

namespace JNum

/-- `Number.isNaN`. -/
def isNaNB : JNum → Bool
  | .nan => true
  | _ => false

/-- `Number.isFinite`. -/
def isFiniteB : JNum → Bool
  | .val _ => true
  | _ => false

/-- JavaScript `a >= b` (false whenever either operand is `NaN`). -/
def jge : JNum → JNum → Bool
  | .nan, _ => false
  | _, .nan => false
  | .posInf, _ => true
  | .negInf, .negInf => true
  | .negInf, _ => false
  | .val _, .posInf => false
  | .val _, .negInf => true
  | .val a, .val b => decide (b ≤ a)

/-- JavaScript subtraction `a - b` (used only as the sort comparator). -/
def jsub : JNum → JNum → JNum
  | .nan, _ => .nan
  | _, .nan => .nan
  | .posInf, .posInf => .nan
  | .posInf, _ => .posInf
  | .negInf, .negInf => .nan
  | .negInf, _ => .negInf
  | .val _, .posInf => .negInf
  | .val _, .negInf => .posInf
  | .val a, .val b => .val (a - b)

/-- Is the number strictly positive?  (`NaN` is not.) -/
def jposB : JNum → Bool
  | .posInf => true
  | .val q => decide (0 < q)
  | _ => false

/-- JavaScript `Math.max a b`: `NaN` if either operand is `NaN`, otherwise the
larger operand. -/
def jmax (a b : JNum) : JNum :=
  if a.isNaNB || b.isNaNB then .nan else if jge a b then a else b

end JNum

/-! ## Strings -/

/-- `String.prototype.toUpperCase`, character by character. -/
def upperStr (s : List Char) : List Char := s.map Char.toUpper

/-- `String.prototype.trim`: drop leading and trailing whitespace. -/
def trimStr (s : List Char) : List Char :=
  ((s.dropWhile Char.isWhitespace).reverse.dropWhile Char.isWhitespace).reverse

/-- Does `hay` start with `needle`? -/
def leadsWith : List Char → List Char → Bool
  | [], _ => true
  | _ :: _, [] => false
  | c :: cs, d :: ds => c == d && leadsWith cs ds

/-- `hay.includes needle` : substring containment, as in
`String.prototype.includes`. -/
def containsSub (needle : List Char) : List Char → Bool
  | [] => leadsWith needle []
  | d :: t => leadsWith needle (d :: t) || containsSub needle t

/-! ## Data model (interfaces `OpportunityLeg`, `ArbitrageOpportunity`) -/

/-- One side of an arbitrage trade (`interface OpportunityLeg`). -/
structure OpportunityLeg where
  exchange : List Char
  price : JNum
  effectivePrice : JNum
  feePercentApplied : JNum
deriving DecidableEq

/-- One opportunity record (`interface ArbitrageOpportunity`).  The
`exchanges` map is kept as an association list. -/
structure ArbitrageOpportunity where
  symbol : List Char
  min : JNum
  max : JNum
  diff : JNum
  netDiff : JNum
  buy : OpportunityLeg
  sell : OpportunityLeg
  exchanges : List (List Char × JNum)
deriving DecidableEq

/-! ## Stable sort (model of `Array.prototype.sort` with a comparator) -/

/-- Insert `a` into `l`, placing it before the first element `b` with
`r a b = true`.  Mirrors how a stable sort positions an element. -/
def insertSorted (r : α → α → Bool) (a : α) : List α → List α
  | [] => [a]
  | b :: l => if r a b then a :: b :: l else b :: insertSorted r a l

/-- Stable insertion sort: earlier input elements are inserted into the
already-sorted tail, so ties keep their input order. -/
def sortByJS (r : α → α → Bool) : List α → List α
  | [] => []
  | a :: l => insertSorted r a (sortByJS r l)

/-- The relation driving the sort for the comparator
`(a, b) => b.netDiff - a.netDiff`: `a` may stay before `b` when the
comparator result is not strictly positive (an ECMAScript comparator result
of `NaN` is treated as `+0`, a tie). -/
def keepOrder (a b : ArbitrageOpportunity) : Bool :=
  ! JNum.jposB (JNum.jsub b.netDiff a.netDiff)

/-! ## The `filtered` computed -/

/-- The filter parameters read by the `filtered` computed. -/
structure FilterParams where
  search : List Char
  minDiffPercent : JNum
deriving DecidableEq

/-- The first filter predicate of `filtered`:
`(item) => (query ? item.symbol.toUpperCase().includes(query) : true)` where
`query = this.search().trim().toUpperCase()`. -/
def passesSearchB (p : FilterParams) (item : ArbitrageOpportunity) : Bool :=
  let query := upperStr (trimStr p.search)
  if query.isEmpty then true else containsSub query (upperStr item.symbol)

/-- The second filter predicate of `filtered`:
`(item) => (Number.isFinite(threshold) ? item.netDiff >= threshold : true)`. -/
def passesThresholdB (p : FilterParams) (item : ArbitrageOpportunity) : Bool :=
  if JNum.isFiniteB p.minDiffPercent then JNum.jge item.netDiff p.minDiffPercent else true

/-- The `filtered` computed: copy the raw records, apply the search filter,
apply the threshold filter, then sort by the comparator
`(a, b) => b.netDiff - a.netDiff`. -/
def deriveView (records : List ArbitrageOpportunity) (p : FilterParams) :
    List ArbitrageOpportunity :=
  sortByJS keepOrder
    ((records.filter (fun item => passesSearchB p item)).filter
      (fun item => passesThresholdB p item))

/-! ## Component state (`AppComponent`) and browser timer table -/

/-- One pending `setInterval` timer in the browser's timer table:
its id, its period (the argument given to `setInterval`), and the instant it
was armed (the first tick is one full period after `armedAt`). -/
structure IntervalTimer where
  id : Nat
  period : JNum
  armedAt : Nat
deriving DecidableEq

/-- The component's signals together with the private `refreshTimer` field
and a model of the browser environment: `liveTimers` is the set of pending
interval timers, `nextTimerId` the next id `setInterval` will return
(browser timer ids are positive, so `0` never collides with the JS
falsiness check on `refreshTimer`). -/
structure AppModel where
  apiBase : List Char
  minDiffPercent : JNum
  search : List Char
  autoRefreshMs : JNum
  autoRefreshEnabled : Bool
  opportunities : List ArbitrageOpportunity
  loading : Bool
  error : Option (List Char)
  lastUpdated : Option Nat
  refreshTimer : Option Nat
  liveTimers : List IntervalTimer
  nextTimerId : Nat
deriving DecidableEq

/-- `MIN_REFRESH_INTERVAL = 1000`. -/
def MIN_REFRESH_INTERVAL : JNum := .val 1000

/-- The component's initial signal values. -/
def initModel : AppModel where
  apiBase := ("https://arbitrage-production-e91f.up.railway.app").toList
  minDiffPercent := .val (1 / 2)
  search := []
  autoRefreshMs := .val 15000
  autoRefreshEnabled := false
  opportunities := []
  loading := false
  error := none
  lastUpdated := none
  refreshTimer := none
  liveTimers := []
  nextTimerId := 1

/-- The `filtered` computed, read off the component state. -/
def filteredOf (s : AppModel) : List ArbitrageOpportunity :=
  deriveView s.opportunities ⟨s.search, s.minDiffPercent⟩

/-! ## The `refresh` operation

`refresh` is asynchronous: its synchronous prefix sets `loading` and clears
`error` and issues the request; when the awaited fetch settles, the tail
either stores the data and the timestamp or records the error message, and
clears `loading` in both cases. -/

/-- The thrown value caught at the fetch boundary: either an `Error` object
carrying a message, or any other thrown value. -/
inductive FetchErr where
  | errObj (message : List Char)
  | nonError
deriving DecidableEq

/-- `error instanceof Error ? error.message : 'Failed to fetch data'`. -/
def errMessage : FetchErr → List Char
  | .errObj m => m
  | .nonError => ("Failed to fetch data").toList

/-- `this.apiBase().replace(/\/$/, '')`: remove one trailing slash. -/
def stripTrailingSlash (s : List Char) : List Char :=
  match s.getLast? with
  | some c => if c = '/' then s.dropLast else s
  | none => s

/-- The request URL built inside `refresh`. -/
def refreshRequestUrl (s : AppModel) : List Char :=
  stripTrailingSlash s.apiBase ++ ("/api/arbitrage").toList

/-- The query parameters built inside `refresh`:
`const params = { minDiffPercent: String(this.minDiffPercent()) }`.
The `String(...)` conversion is abstracted away; a pair carries the raw
numeric value of the parameter. -/
def refreshRequestParams (s : AppModel) : List (List Char × JNum) :=
  [(("minDiffPercent").toList, s.minDiffPercent)]

/-- Synchronous prefix of `refresh`, up to the awaited fetch:
`this.loading.set(true); this.error.set(null);`. -/
def refreshStart (s : AppModel) : AppModel :=
  { s with loading := true, error := none }

/-- Tail of `refresh`, run when the awaited fetch settles with `outcome`
(`now` is the value of `new Date()` on success). -/
def refreshFinish (s : AppModel) (outcome : Except FetchErr (List ArbitrageOpportunity))
    (now : Nat) : AppModel :=
  match outcome with
  | .ok data => { s with opportunities := data, lastUpdated := some now, loading := false }
  | .error e => { s with error := some (errMessage e), loading := false }

/-- A whole run of `refresh`, from call to completion. -/
def refreshRun (s : AppModel) (outcome : Except FetchErr (List ArbitrageOpportunity))
    (now : Nat) : AppModel :=
  refreshFinish (refreshStart s) outcome now

/-! ## The refresh scheduler -/

/-- The externally visible side effects of the scheduler, in order. -/
inductive SchedAction where
  | fetch : SchedAction
  | arm (id : Nat) (period : JNum) : SchedAction
  | cancel (id : Nat) : SchedAction
deriving DecidableEq

/-- `stopAutoRefresh`: if a timer handle is held, `clearInterval` it and null
the handle. -/
def stopAutoRefresh (s : AppModel) : AppModel × List SchedAction :=
  match s.refreshTimer with
  | some id =>
      ({ s with refreshTimer := none,
                liveTimers := s.liveTimers.filter (fun tmr => tmr.id != id) },
       [.cancel id])
  | none => (s, [])

/-- `startAutoRefresh(intervalMs)`: stop any running timer, clamp the
interval, trigger one fetch (`this.refresh()` — its synchronous prefix runs
now, the fetch is emitted as an action), then arm a fresh interval timer at
the clamped period. -/
def startAutoRefresh (s : AppModel) (intervalMs : JNum) (now : Nat) :
    AppModel × List SchedAction :=
  let s1 := (stopAutoRefresh s).1
  let ms := JNum.jmax MIN_REFRESH_INTERVAL intervalMs
  let s2 := refreshStart s1
  let id := s2.nextTimerId
  ({ s2 with refreshTimer := some id,
             liveTimers := s2.liveTimers ++ [⟨id, ms, now⟩],
             nextTimerId := id + 1 },
   (stopAutoRefresh s).2 ++ [.fetch, .arm id ms])

/-- The constructor's `effect`: rerun whenever `autoRefreshEnabled` or
`autoRefreshMs` changes; start when enabled, stop when not. -/
def runEffect (s : AppModel) (now : Nat) : AppModel × List SchedAction :=
  if s.autoRefreshEnabled then startAutoRefresh s s.autoRefreshMs now
  else stopAutoRefresh s

/-- `updateMinDiff(value)` with `value` already coerced by `Number(...)`:
a non-numeric input shows up here as `NaN`. -/
def updateMinDiff (s : AppModel) (parsed : JNum) : AppModel :=
  { s with minDiffPercent := if parsed.isNaNB then .val 0 else parsed }

/-- `updateAutoInterval(value)` with `value` already coerced by
`Number(...)`. -/
def updateAutoInterval (s : AppModel) (numeric : JNum) : AppModel :=
  { s with autoRefreshMs :=
      JNum.jmax MIN_REFRESH_INTERVAL (if numeric.isNaNB then MIN_REFRESH_INTERVAL else numeric) }

/-! ## Event-level transition system -/

/-- The external events the component reacts to. -/
inductive Ev where
  | setEnabled (b : Bool) : Ev
  | setIntervalMs (v : JNum) : Ev
  | setMinDiffInput (v : JNum) : Ev
  | manualRefresh : Ev
  | fetchDone (outcome : Except FetchErr (List ArbitrageOpportunity)) : Ev
  | tick : Ev
  | destroy : Ev

/-- One transition: the event, the current instant, the produced state and
the emitted actions.  `setEnabled` / `setIntervalMs` write the signal and
rerun the constructor `effect`; `manualRefresh` and a timer `tick` run the
synchronous prefix of `refresh` and emit a fetch; `fetchDone` runs the tail
of `refresh`; `destroy` is the `DestroyRef.onDestroy` hook. -/
def step (s : AppModel) (now : Nat) (e : Ev) : AppModel × List SchedAction :=
  match e with
  | .setEnabled b => runEffect { s with autoRefreshEnabled := b } now
  | .setIntervalMs v => runEffect (updateAutoInterval s v) now
  | .setMinDiffInput v => (updateMinDiff s v, [])
  | .manualRefresh => (refreshStart s, [.fetch])
  | .fetchDone outcome => (refreshFinish s outcome now, [])
  | .tick => (refreshStart s, [.fetch])
  | .destroy => stopAutoRefresh s

/-- Run a timed event trace from a state. -/
def runTrace (s : AppModel) : List (Nat × Ev) → AppModel
  | [] => s
  | e :: evs => runTrace (step s e.1 e.2).1 evs

/-- The scheduler-handle invariant: the handle points at the unique live
timer, and with no handle there is no live timer.  In particular at most one
timer is ever alive. -/
def timerInvB (s : AppModel) : Bool :=
  match s.refreshTimer with
  | some id =>
      match s.liveTimers with
      | [tmr] => tmr.id == id
      | _ => false
  | none => s.liveTimers.isEmpty

/-! ## Lemmas about the stable sort -/

theorem mem_insertSorted {r : α → α → Bool} {a x : α} {l : List α} :
    x ∈ insertSorted r a l ↔ x = a ∨ x ∈ l := by
  induction l with
  | nil => simp [insertSorted]
  | cons b l ih =>
      cases hr : r a b <;> simp [insertSorted, hr, ih] <;> tauto

theorem mem_sortByJS {r : α → α → Bool} {x : α} {l : List α} :
    x ∈ sortByJS r l ↔ x ∈ l := by
  induction l with
  | nil => simp [sortByJS]
  | cons a l ih => simp [sortByJS, mem_insertSorted, ih]

theorem pairwise_insertSorted {r : α → α → Bool} {a : α} {l : List α}
    (htot : ∀ b ∈ l, (r a b || r b a) = true)
    (htrans : ∀ b ∈ l, ∀ c ∈ l, r a b = true → r b c = true → r a c = true)
    (hp : l.Pairwise (fun x y => r x y = true)) :
    (insertSorted r a l).Pairwise (fun x y => r x y = true) := by
  induction l with
  | nil => simp [insertSorted]
  | cons b l ih =>
      rcases List.pairwise_cons.1 hp with ⟨hb, hp'⟩
      cases hr : r a b
      · have hba : r b a = true := by
          have h := htot b (by simp)
          rw [hr] at h
          simpa using h
        simp only [insertSorted, hr, Bool.false_eq_true, if_false]
        refine List.pairwise_cons.2 ⟨?_, ?_⟩
        · intro c hc
          rcases mem_insertSorted.1 hc with rfl | hcl
          · exact hba
          · exact hb c hcl
        · exact ih (fun c hc => htot c (by simp [hc]))
            (fun c hc d hd => htrans c (by simp [hc]) d (by simp [hd])) hp'
      · simp only [insertSorted, hr, if_true]
        refine List.pairwise_cons.2 ⟨?_, List.pairwise_cons.2 ⟨hb, hp'⟩⟩
        intro c hc
        rcases List.mem_cons.1 hc with rfl | hcl
        · exact hr
        · exact htrans b (by simp) c (by simp [hcl]) hr (hb c hcl)

theorem pairwise_sortByJS {r : α → α → Bool} {l : List α}
    (htot : ∀ a ∈ l, ∀ b ∈ l, (r a b || r b a) = true)
    (htrans : ∀ a ∈ l, ∀ b ∈ l, ∀ c ∈ l, r a b = true → r b c = true → r a c = true) :
    (sortByJS r l).Pairwise (fun x y => r x y = true) := by
  induction l with
  | nil => simp [sortByJS]
  | cons a l ih =>
      simp only [sortByJS]
      apply pairwise_insertSorted
      · intro b hb
        exact htot a (by simp) b (by simp [mem_sortByJS.1 hb])
      · intro b hb c hc hab hbc
        exact htrans a (by simp) b (by simp [mem_sortByJS.1 hb])
          c (by simp [mem_sortByJS.1 hc]) hab hbc
      · exact ih (fun x hx y hy => htot x (by simp [hx]) y (by simp [hy]))
          (fun x hx y hy z hz => htrans x (by simp [hx]) y (by simp [hy]) z (by simp [hz]))

theorem filter_insertSorted_pos {r : α → α → Bool} {p : α → Bool} {a : α} {l : List α}
    (hpa : p a = true) (h : ∀ b ∈ l, p b = true → r a b = true) :
    (insertSorted r a l).filter p = a :: l.filter p := by
  induction l with
  | nil => simp [insertSorted, hpa]
  | cons b l ih =>
      cases hr : r a b
      · have hpb : p b = false := by
          cases hpb : p b
          · rfl
          · have := h b (by simp) hpb
            rw [hr] at this
            exact absurd this (by simp)
        simp [insertSorted, hr, List.filter_cons, hpb,
          ih (fun c hc hpc => h c (by simp [hc]) hpc)]
      · simp [insertSorted, hr, List.filter_cons, hpa]

theorem filter_insertSorted_neg {r : α → α → Bool} {p : α → Bool} {a : α} {l : List α}
    (hpa : p a = false) :
    (insertSorted r a l).filter p = l.filter p := by
  induction l with
  | nil => simp [insertSorted, hpa]
  | cons b l ih =>
      cases hr : r a b <;> simp [insertSorted, hr, List.filter_cons, hpa, ih]

theorem filter_sortByJS {r : α → α → Bool} {p : α → Bool} {l : List α}
    (hties : ∀ a ∈ l, ∀ b ∈ l, p a = true → p b = true → r a b = true) :
    (sortByJS r l).filter p = l.filter p := by
  induction l with
  | nil => simp [sortByJS]
  | cons a l ih =>
      simp only [sortByJS]
      cases hpa : p a
      · rw [filter_insertSorted_neg hpa,
          ih (fun x hx y hy => hties x (by simp [hx]) y (by simp [hy]))]
        simp [List.filter_cons, hpa]
      · rw [filter_insertSorted_pos hpa
          (fun b hb hpb => hties a (by simp) b (by simp [mem_sortByJS.1 hb]) hpa hpb),
          ih (fun x hx y hy => hties x (by simp [hx]) y (by simp [hy]))]
        simp [List.filter_cons, hpa]

/-! ## Lemmas about the number model and the comparator -/

theorem jge_total {a b : JNum} (ha : a ≠ JNum.nan) (hb : b ≠ JNum.nan) :
    (JNum.jge a b || JNum.jge b a) = true := by
  cases a <;> cases b <;> simp_all [JNum.jge, le_total]

theorem jge_trans {a b c : JNum} (h1 : JNum.jge a b = true) (h2 : JNum.jge b c = true) :
    JNum.jge a c = true := by
  cases a <;> cases b <;> cases c <;> simp_all [JNum.jge] <;> exact le_trans h2 h1

/-- On `NaN`-free values, the sort relation coincides with the JavaScript
`>=` comparison on `netDiff`. -/
theorem keepOrder_eq_jge {a b : ArbitrageOpportunity}
    (ha : a.netDiff ≠ JNum.nan) (hb : b.netDiff ≠ JNum.nan) :
    keepOrder a b = JNum.jge a.netDiff b.netDiff := by
  unfold keepOrder
  cases hA : a.netDiff <;> cases hB : b.netDiff <;>
    simp_all [JNum.jsub, JNum.jposB, JNum.jge, ← decide_not, decide_eq_decide,
      not_lt, sub_nonpos]

/-- Records with equal `netDiff` are ties for the comparator. -/
theorem keepOrder_of_eq {a b : ArbitrageOpportunity} (h : a.netDiff = b.netDiff) :
    keepOrder a b = true := by
  unfold keepOrder
  rw [h]
  cases b.netDiff <;> simp [JNum.jsub, JNum.jposB]

/-! ## Membership in the derived view -/

theorem mem_deriveView {records : List ArbitrageOpportunity} {p : FilterParams}
    {r : ArbitrageOpportunity} :
    r ∈ deriveView records p ↔
      r ∈ records ∧ passesSearchB p r = true ∧ passesThresholdB p r = true := by
  simp only [deriveView, mem_sortByJS, List.mem_filter, and_assoc]

/-! ## Sample data for concrete instantiations -/

/-- A concrete trade leg. -/
def sampleLeg : OpportunityLeg :=
  ⟨("binance").toList, .val 100, .val 101, .val 1⟩

/-- A concrete opportunity record with symbol `BTC` and `netDiff = 1`. -/
def recBTC : ArbitrageOpportunity :=
  ⟨("BTC").toList, .val 100, .val 102, .val 2, .val 1, sampleLeg, sampleLeg,
   [(("binance").toList, .val 100)]⟩

/-- A concrete opportunity record with symbol `ETH` and `netDiff = 1`. -/
def recETH : ArbitrageOpportunity :=
  ⟨("ETH").toList, .val 100, .val 102, .val 2, .val 1, sampleLeg, sampleLeg,
   [(("binance").toList, .val 100)]⟩

/-! ## Claims about the `filtered` computed -/

/-- C1: for a finite `minDiffPercent`, every record of the derived view
satisfies `netDiff >= minDiffPercent`, and a record passing the search filter
is excluded only if it fails that comparison (equivalently: a record that
passes the search filter and satisfies the comparison is in the view); for a
non-finite `minDiffPercent`, no record passing the search filter is excluded
at all. -/
theorem c1_threshold_filter (records : List ArbitrageOpportunity) (p : FilterParams) :
    (JNum.isFiniteB p.minDiffPercent = true →
      (∀ r ∈ deriveView records p, JNum.jge r.netDiff p.minDiffPercent = true) ∧
      (∀ r ∈ records, passesSearchB p r = true →
        JNum.jge r.netDiff p.minDiffPercent = true → r ∈ deriveView records p)) ∧
    (JNum.isFiniteB p.minDiffPercent = false →
      ∀ r ∈ records, passesSearchB p r = true → r ∈ deriveView records p) := by
  constructor
  · intro hfin
    constructor
    · intro r hr
      have h := (mem_deriveView.1 hr).2.2
      simpa [passesThresholdB, hfin] using h
    · intro r hr hs ht
      exact mem_deriveView.2 ⟨hr, hs, by simp [passesThresholdB, hfin, ht]⟩
  · intro hfin r hr hs
    exact mem_deriveView.2 ⟨hr, hs, by simp [passesThresholdB, hfin]⟩

/-- Witness for C1 at a concrete input: with threshold `0` and empty search,
the record with `netDiff = 1` is in the derived view. -/
theorem c1_threshold_filter_witness :
    recBTC ∈ deriveView [recBTC] ⟨[], JNum.val 0⟩ :=
  ((c1_threshold_filter [recBTC] ⟨[], JNum.val 0⟩).1 (by decide)).2 recBTC
    (by decide) (by decide) (by decide)

/-- C2 counterexample: the claim quantifies over every *non-empty* search
string, but the code trims the search before matching.  With the non-empty
search `" "` the trimmed query is empty, so the `BTC` record stays in the
view even though `"BTC"` does not case-insensitively contain `" "`. -/
theorem c2_counterexample :
    ((" ").toList.isEmpty = false) ∧
    recBTC ∈ deriveView [recBTC] ⟨(" ").toList, JNum.val 0⟩ ∧
    containsSub (upperStr ((" ").toList)) (upperStr recBTC.symbol) = false := by
  decide

/-- C2 (amended: the search is trimmed before matching): whenever the
*trimmed* search is non-empty, every record of the derived view
case-insensitively contains the trimmed search; when the trimmed search is
empty, no record is excluded on the basis of search. -/
theorem c2_search_filter (records : List ArbitrageOpportunity) (p : FilterParams) :
    (trimStr p.search ≠ [] →
      ∀ r ∈ deriveView records p,
        containsSub (upperStr (trimStr p.search)) (upperStr r.symbol) = true) ∧
    (trimStr p.search = [] →
      ∀ r ∈ records, passesThresholdB p r = true → r ∈ deriveView records p) := by
  constructor
  · intro hne r hr
    have h := (mem_deriveView.1 hr).2.1
    have hq : (upperStr (trimStr p.search)).isEmpty = false := by
      cases htr : trimStr p.search
      · exact absurd htr hne
      · simp [upperStr, htr]
    simpa [passesSearchB, hq] using h
  · intro he r hr ht
    refine mem_deriveView.2 ⟨hr, ?_, ht⟩
    simp [passesSearchB, he, upperStr]

/-- Witness for the amended C2 at a concrete input: with search `" et "`,
the `ETH` record is in the view and its symbol contains the trimmed query. -/
theorem c2_search_filter_witness :
    containsSub (upperStr (trimStr ((" et ").toList))) (upperStr recETH.symbol) = true :=
  (c2_search_filter [recETH] ⟨(" et ").toList, JNum.val 0⟩).1 (by decide) recETH
    (by decide)

/-- C3: over `NaN`-free records (fetch payloads are parsed JSON arrays,
which cannot contain `NaN`; for a `NaN` `netDiff` the comparator would be
inconsistent and ECMAScript leaves the sort order implementation-defined),
the derived view is sorted descending by `netDiff`, and the records of the
view sharing any fixed `netDiff` value appear in the relative order of the
raw record set. -/
theorem c3_sorted_stable (records : List ArbitrageOpportunity) (p : FilterParams)
    (hnn : ∀ r ∈ records, r.netDiff ≠ JNum.nan) :
    (deriveView records p).Pairwise
      (fun a b => JNum.jge a.netDiff b.netDiff = true) ∧
    ∀ v : JNum,
      ((deriveView records p).filter (fun r => r.netDiff == v)).Sublist records := by
  have hsub : ∀ r ∈ ((records.filter (fun item => passesSearchB p item)).filter
      (fun item => passesThresholdB p item)), r.netDiff ≠ JNum.nan := fun r hr =>
    hnn r (List.mem_of_mem_filter (List.mem_of_mem_filter hr))
  constructor
  · have hp := pairwise_sortByJS (r := keepOrder)
      (l := (records.filter (fun item => passesSearchB p item)).filter
        (fun item => passesThresholdB p item))
      (fun a ha b hb => by
        rw [keepOrder_eq_jge (hsub a ha) (hsub b hb),
            keepOrder_eq_jge (hsub b hb) (hsub a ha)]
        exact jge_total (hsub a ha) (hsub b hb))
      (fun a ha b hb c hc hab hbc => by
        rw [keepOrder_eq_jge (hsub a ha) (hsub c hc)]
        rw [keepOrder_eq_jge (hsub a ha) (hsub b hb)] at hab
        rw [keepOrder_eq_jge (hsub b hb) (hsub c hc)] at hbc
        exact jge_trans hab hbc)
    unfold deriveView
    refine List.Pairwise.imp_of_mem ?_ hp
    intro a b ha hb h
    rw [keepOrder_eq_jge (hsub a (mem_sortByJS.1 ha)) (hsub b (mem_sortByJS.1 hb))] at h
    exact h
  · intro v
    have hst := filter_sortByJS (r := keepOrder) (p := fun r => r.netDiff == v)
      (l := (records.filter (fun item => passesSearchB p item)).filter
        (fun item => passesThresholdB p item))
      (fun a _ b _ hpa hpb => by
        have ha : a.netDiff = v := by simpa using hpa
        have hb : b.netDiff = v := by simpa using hpb
        exact keepOrder_of_eq (ha.trans hb.symm))
    unfold deriveView
    rw [hst]
    exact (List.filter_sublist _).trans
      ((List.filter_sublist _).trans (List.filter_sublist _))

/-- Witness for C3 at a concrete input with a genuine tie: `BTC` and `ETH`
both have `netDiff = 1`; the view is sorted and the tied records stay in raw
order. -/
theorem c3_sorted_stable_witness :
    ((deriveView [recBTC, recETH] ⟨[], JNum.val 0⟩).Pairwise
      (fun a b => JNum.jge a.netDiff b.netDiff = true)) ∧
    ((deriveView [recBTC, recETH] ⟨[], JNum.val 0⟩).filter
      (fun r => r.netDiff == JNum.val 1)).Sublist [recBTC, recETH] :=
  ⟨(c3_sorted_stable [recBTC, recETH] ⟨[], JNum.val 0⟩ (by decide)).1,
   (c3_sorted_stable [recBTC, recETH] ⟨[], JNum.val 0⟩ (by decide)).2 (JNum.val 1)⟩

/-! ## Claims about `refresh`, the setters and the scheduler -/

/-- The component state with a non-finite threshold (spec §4.1: a non-finite
`minDiffPercent` means the threshold filter does not participate). -/
def sInfModel : AppModel := { initModel with minDiffPercent := .posInf }

/-- C4 counterexample: with the non-finite threshold `Infinity` — the
threshold filter inactive — `refresh` still carries the `minDiffPercent`
query parameter; the code builds `params` unconditionally. -/
theorem c4_counterexample :
    JNum.isFiniteB sInfModel.minDiffPercent = false ∧
    (refreshRequestParams sInfModel).map Prod.fst = [("minDiffPercent").toList] :=
  ⟨rfl, rfl⟩

/-- C4 (amended): for every state, `refresh` issues a GET request to
`{apiBase stripped of one trailing slash}/api/arbitrage`, and its query
parameters always carry exactly the `minDiffPercent` key with the current
`minDiffPercent` value, whether or not the threshold filter is active. -/
theorem c4_request_always_param (s : AppModel) :
    ((("minDiffPercent").toList, s.minDiffPercent) ∈ refreshRequestParams s) ∧
    (∀ q ∈ refreshRequestParams s,
      q.1 = ("minDiffPercent").toList ∧ q.2 = s.minDiffPercent) ∧
    refreshRequestUrl s = stripTrailingSlash s.apiBase ++ ("/api/arbitrage").toList := by
  refine ⟨by simp [refreshRequestParams], ?_, rfl⟩
  intro q hq
  simp only [refreshRequestParams, List.mem_singleton] at hq
  simp [hq]

/-- Witness for the amended C4 at the initial state. -/
theorem c4_request_always_param_witness :
    ((("minDiffPercent").toList, initModel.minDiffPercent).1 = ("minDiffPercent").toList ∧
     (("minDiffPercent").toList, initModel.minDiffPercent).2 = initModel.minDiffPercent) :=
  (c4_request_always_param initModel).2.1
    ((("minDiffPercent").toList, initModel.minDiffPercent))
    (by simp [refreshRequestParams])

/-- C5: when the fetch inside `refresh` fails, the raw record set and
`lastUpdated` are unchanged, the error signal holds a message, and `loading`
is false; on success the raw record set is replaced wholesale, `lastUpdated`
is recorded and `loading` is false. -/
theorem c5_refresh_outcome (s : AppModel) (e : FetchErr)
    (data : List ArbitrageOpportunity) (now : Nat) :
    ((refreshRun s (.error e) now).opportunities = s.opportunities) ∧
    ((refreshRun s (.error e) now).lastUpdated = s.lastUpdated) ∧
    ((refreshRun s (.error e) now).error = some (errMessage e)) ∧
    ((refreshRun s (.error e) now).error.isSome = true) ∧
    ((refreshRun s (.error e) now).loading = false) ∧
    ((refreshRun s (.ok data) now).opportunities = data) ∧
    ((refreshRun s (.ok data) now).lastUpdated = some now) ∧
    ((refreshRun s (.ok data) now).loading = false) := by
  simp [refreshRun, refreshStart, refreshFinish]

/-- C6: `updateMinDiff` stores the parsed number, collapsing `NaN` to `0`
(never storing `NaN`); `updateAutoInterval` stores
`Math.max(1000, numeric)` with `NaN` collapsing to the floor, so the stored
interval always satisfies `>= 1000`. -/
theorem c6_input_sanitization (s : AppModel) (v : JNum) :
    ((updateMinDiff s v).minDiffPercent = (if v.isNaNB then JNum.val 0 else v)) ∧
    ((updateMinDiff s v).minDiffPercent.isNaNB = false) ∧
    ((updateAutoInterval s v).autoRefreshMs =
      JNum.jmax MIN_REFRESH_INTERVAL (if v.isNaNB then MIN_REFRESH_INTERVAL else v)) ∧
    (JNum.jge (updateAutoInterval s v).autoRefreshMs MIN_REFRESH_INTERVAL = true) := by
  refine ⟨rfl, ?_, rfl, ?_⟩
  · unfold updateMinDiff
    cases v <;> simp [JNum.isNaNB]
  · unfold updateAutoInterval MIN_REFRESH_INTERVAL
    rcases v with _ | _ | _ | q
    · simp [JNum.isNaNB, JNum.jmax, JNum.jge]
    · simp [JNum.isNaNB, JNum.jmax, JNum.jge]
    · simp [JNum.isNaNB, JNum.jmax, JNum.jge]
    · by_cases h : q ≤ 1000
      · simp [JNum.isNaNB, JNum.jmax, JNum.jge, h]
      · simp [JNum.isNaNB, JNum.jmax, JNum.jge, h, le_of_lt (lt_of_not_ge h)]

/-! ## Preservation of the scheduler-handle invariant -/

theorem timerInvB_cases {s : AppModel} (h : timerInvB s = true) :
    (s.refreshTimer = none ∧ s.liveTimers = []) ∨
    (∃ id tmr, s.refreshTimer = some id ∧ s.liveTimers = [tmr] ∧ tmr.id = id) := by
  unfold timerInvB at h
  cases hrt : s.refreshTimer with
  | none =>
      rw [hrt] at h
      exact Or.inl ⟨rfl, by simpa [List.isEmpty_iff] using h⟩
  | some id =>
      rw [hrt] at h
      cases hlt : s.liveTimers with
      | nil => rw [hlt] at h; simp at h
      | cons tmr rest =>
          cases rest with
          | nil =>
              rw [hlt] at h
              simp only [beq_iff_eq] at h
              exact Or.inr ⟨id, tmr, rfl, rfl, h⟩
          | cons x xs => rw [hlt] at h; simp at h

theorem stopAutoRefresh_state {s : AppModel} (h : timerInvB s = true) :
    (stopAutoRefresh s).1.refreshTimer = none ∧ (stopAutoRefresh s).1.liveTimers = [] := by
  rcases timerInvB_cases h with ⟨h1, h2⟩ | ⟨id, tmr, h1, h2, h3⟩
  · simp [stopAutoRefresh, h1, h2]
  · simp [stopAutoRefresh, h1, h2, List.filter_cons, h3]

theorem timerInvB_stop {s : AppModel} (h : timerInvB s = true) :
    timerInvB (stopAutoRefresh s).1 = true := by
  have hs := stopAutoRefresh_state h
  unfold timerInvB
  rw [hs.1, hs.2]
  rfl

theorem timerInvB_start {s : AppModel} (i : JNum) (t : Nat) (h : timerInvB s = true) :
    timerInvB (startAutoRefresh s i t).1 = true := by
  have hs := stopAutoRefresh_state h
  unfold startAutoRefresh timerInvB
  simp [refreshStart, hs.2]

theorem timerInvB_runEffect {s : AppModel} (now : Nat) (h : timerInvB s = true) :
    timerInvB (runEffect s now).1 = true := by
  unfold runEffect
  by_cases he : s.autoRefreshEnabled
  · rw [if_pos he]
    exact timerInvB_start _ _ h
  · rw [if_neg he]
    exact timerInvB_stop h

theorem timerInvB_step {s : AppModel} (now : Nat) (e : Ev) (h : timerInvB s = true) :
    timerInvB (step s now e).1 = true := by
  cases e with
  | setEnabled b =>
      exact timerInvB_runEffect now (s := { s with autoRefreshEnabled := b }) h
  | setIntervalMs v =>
      exact timerInvB_runEffect now (s := updateAutoInterval s v) h
  | setMinDiffInput v => exact h
  | manualRefresh => exact h
  | fetchDone outcome => cases outcome <;> exact h
  | tick => exact h
  | destroy => exact timerInvB_stop h

theorem timerInvB_runTrace {s : AppModel} (hs : timerInvB s = true) :
    ∀ evs : List (Nat × Ev), timerInvB (runTrace s evs) = true := by
  intro evs
  induction evs generalizing s with
  | nil => exact hs
  | cons e evs ih => exact ih (timerInvB_step e.1 e.2 hs)

theorem liveTimers_length_le_one {s : AppModel} (h : timerInvB s = true) :
    s.liveTimers.length ≤ 1 := by
  rcases timerInvB_cases h with ⟨_, h2⟩ | ⟨id, tmr, _, h2, _⟩ <;> simp [h2]

/-- C7: in every state reachable from the initial one there is at most one
live timer; `startAutoRefresh` cancels the held timer (first action) before
arming the new one; disabling auto-refresh or destroying the component
cancels the live timer and leaves the handle absent. -/
theorem c7_at_most_one_timer (evs : List (Nat × Ev)) (t : Nat) (i : JNum) (id : Nat) :
    ((runTrace initModel evs).liveTimers.length ≤ 1) ∧
    ((step (runTrace initModel evs) t (.setEnabled false)).1.refreshTimer = none) ∧
    ((step (runTrace initModel evs) t (.setEnabled false)).1.liveTimers = []) ∧
    ((step (runTrace initModel evs) t .destroy).1.refreshTimer = none) ∧
    ((step (runTrace initModel evs) t .destroy).1.liveTimers = []) ∧
    ((runTrace initModel evs).refreshTimer = some id →
      (startAutoRefresh (runTrace initModel evs) i t).2 =
        [SchedAction.cancel id, SchedAction.fetch,
         SchedAction.arm (runTrace initModel evs).nextTimerId
           (JNum.jmax MIN_REFRESH_INTERVAL i)]) ∧
    ((startAutoRefresh (runTrace initModel evs) i t).1.liveTimers.length ≤ 1) := by
  have hinv : timerInvB (runTrace initModel evs) = true := timerInvB_runTrace (by rfl) evs
  have hdisable := stopAutoRefresh_state
    (s := { runTrace initModel evs with autoRefreshEnabled := false }) hinv
  have hdestroy := stopAutoRefresh_state (s := runTrace initModel evs) hinv
  refine ⟨liveTimers_length_le_one hinv, hdisable.1, hdisable.2, hdestroy.1, hdestroy.2,
    ?_, liveTimers_length_le_one (timerInvB_start i t hinv)⟩
  intro hrt
  simp [startAutoRefresh, stopAutoRefresh, refreshStart, hrt]

/-- Witness for C7: after enabling auto-refresh once, the handle holds timer
`1`, and restarting cancels it before arming timer `2`. -/
theorem c7_at_most_one_timer_witness :
    (startAutoRefresh (runTrace initModel [(0, Ev.setEnabled true)]) (JNum.val 2000) 5).2 =
      [SchedAction.cancel 1, SchedAction.fetch,
       SchedAction.arm (runTrace initModel [(0, Ev.setEnabled true)]).nextTimerId
         (JNum.jmax MIN_REFRESH_INTERVAL (JNum.val 2000))] :=
  (c7_at_most_one_timer [(0, Ev.setEnabled true)] 5 (JNum.val 2000) 1).2.2.2.2.2.1 rfl

/-- C8: `startAutoRefresh` emits exactly one fetch, after the cancellation of
any held timer and before arming the new one; the new timer is armed with the
clamped period `Math.max(1000, intervalMs)` and its wait starts at the
current instant (no credit for elapsed time); enabling auto-refresh runs
exactly this routine with the current interval. -/
theorem c8_immediate_fetch_then_arm (s : AppModel) (i : JNum) (t : Nat) :
    ((startAutoRefresh s i t).2 =
      (match s.refreshTimer with
       | some id => [SchedAction.cancel id]
       | none => []) ++
      [SchedAction.fetch,
       SchedAction.arm s.nextTimerId (JNum.jmax MIN_REFRESH_INTERVAL i)]) ∧
    ((startAutoRefresh s i t).2.count SchedAction.fetch = 1) ∧
    ((startAutoRefresh s i t).1.refreshTimer = some s.nextTimerId) ∧
    ((startAutoRefresh s i t).1.liveTimers.getLast? =
      some ⟨s.nextTimerId, JNum.jmax MIN_REFRESH_INTERVAL i, t⟩) ∧
    (step s t (.setEnabled true) =
      startAutoRefresh { s with autoRefreshEnabled := true } s.autoRefreshMs t) := by
  refine ⟨?_, ?_, ?_, ?_, rfl⟩
  · cases hrt : s.refreshTimer <;>
      simp [startAutoRefresh, stopAutoRefresh, refreshStart, hrt]
  · cases hrt : s.refreshTimer <;>
      simp [startAutoRefresh, stopAutoRefresh, refreshStart, hrt, List.count_cons,
        List.count_append]
  · cases hrt : s.refreshTimer <;>
      simp [startAutoRefresh, stopAutoRefresh, refreshStart, hrt]
  · cases hrt : s.refreshTimer <;>
      simp [startAutoRefresh, stopAutoRefresh, refreshStart, hrt]

/-- C9: `refresh` never touches the timer state: neither its synchronous
prefix, nor its completion, nor a manual-refresh event changes the
`refreshTimer` handle or the live timer table, in any state. -/
theorem c9_refresh_preserves_timer (s : AppModel)
    (o : Except FetchErr (List ArbitrageOpportunity)) (now t : Nat) :
    ((refreshStart s).refreshTimer = s.refreshTimer) ∧
    ((refreshStart s).liveTimers = s.liveTimers) ∧
    ((refreshFinish s o now).refreshTimer = s.refreshTimer) ∧
    ((refreshFinish s o now).liveTimers = s.liveTimers) ∧
    ((step s t .manualRefresh).1.refreshTimer = s.refreshTimer) ∧
    ((step s t .manualRefresh).1.liveTimers = s.liveTimers) := by
  cases o <;> simp [refreshStart, refreshFinish, step]

/-- C10: `refresh` clears the error signal before the fetch is attempted,
and a successful refresh therefore always ends with a `null` error, whatever
error an earlier refresh had recorded. -/
theorem c10_error_cleared_on_success (s : AppModel)
    (data : List ArbitrageOpportunity) (now : Nat) :
    ((refreshStart s).error = none) ∧
    ((refreshRun s (.ok data) now).error = none) := by
  simp [refreshStart, refreshRun, refreshFinish]
